import Mathlib

/-!
Verification of the procedural terrain / world-streaming subsystem of the
minecraft-starter repository.

Shallow embedding conventions:
* JS `number` values are modelled as rationals (`ℚ`); all arithmetic in the
  embedded code paths is exact (additions, multiplications, `Math.floor`,
  `Math.min`/`Math.max`), so `ℚ` is a faithful carrier for the values the
  claims are about.
* The PRNG library `Rand` (src/lib/rand-seed, not part of the given sources)
  is modelled as an explicit parameter `rand : String → ℚ`: `rand s` stands
  for the first output of a `Rand` instance constructed from the seed string
  `s`.  Per its documented contract the output is a deterministic value in
  `[0, 1)`; theorems that need the range take it as a hypothesis.
* `Float32Array` buffers are modelled as `List ℚ`; the JS `Map` that holds
  loaded chunks is modelled as an insertion-ordered association list, which
  matches JS `Map` iteration semantics.
-/

set_option maxHeartbeats 1000000

namespace Minecraft

/-- Global seed for the entire world (Noise.ts line 4). -/
def WORLD_SEED : String := "my_minecraft_world_42"

namespace Noise

/-- `Noise.getCoordinateSeed` (Noise.ts lines 10-14): combines the world seed
and the integer coordinates with `|` separators. -/
def getCoordinateSeed (ix iz : ℤ) : String :=
  WORLD_SEED ++ "|" ++ toString ix ++ "|" ++ toString iz

/-- `Noise.getConstantRandomValue` (Noise.ts lines 18-24): seeds a fresh
`Rand` from the coordinate-specific seed string and returns its first
output.  The `Rand` library itself is modelled by the parameter `rand`. -/
def getConstantRandomValue (rand : String → ℚ) (ix iz : ℤ) : ℚ :=
  rand (getCoordinateSeed ix iz)

/-- `Noise.fade` (Noise.ts lines 29-32): Perlin smoothstep 6t⁵-15t⁴+10t³. -/
def fade (t : ℚ) : ℚ := t * t * t * (t * (t * 6 - 15) + 10)

/-- `Noise.lerp` (Noise.ts lines 34-36). -/
def lerp (a b t : ℚ) : ℚ := a + t * (b - a)

/-- `Noise.valueNoise` (Noise.ts lines 43-68): bilinear interpolation of the
four lattice-corner values with faded fractional weights. -/
def valueNoise (rand : String → ℚ) (x z : ℚ) : ℚ :=
  let gx0 : ℤ := ⌊x⌋
  let gz0 : ℤ := ⌊z⌋
  let gx1 : ℤ := gx0 + 1
  let gz1 : ℤ := gz0 + 1
  let tx : ℚ := x - (gx0 : ℚ)
  let tz : ℚ := z - (gz0 : ℚ)
  let u := fade tx
  let v := fade tz
  let v00 := getConstantRandomValue rand gx0 gz0
  let v10 := getConstantRandomValue rand gx1 gz0
  let v01 := getConstantRandomValue rand gx0 gz1
  let v11 := getConstantRandomValue rand gx1 gz1
  let nx0 := lerp v00 v10 u
  let nx1 := lerp v01 v11 u
  lerp nx0 nx1 v

/-- The `for` loop of `Noise.octaveNoise` (Noise.ts lines 85-92), with the
loop counter counting the remaining iterations; the accumulators are,
in order: `total`, `amplitude`, `currentFrequency`, `maxValue`.
Returns the final `(total, maxValue)`. -/
def octaveNoiseGo (rand : String → ℚ) (x z persistence : ℚ) :
    ℕ → ℚ → ℚ → ℚ → ℚ → ℚ × ℚ
  | 0, total, _amplitude, _currentFrequency, maxValue => (total, maxValue)
  | n + 1, total, amplitude, currentFrequency, maxValue =>
      octaveNoiseGo rand x z persistence n
        (total + valueNoise rand (x * currentFrequency) (z * currentFrequency) * amplitude)
        (amplitude * persistence) (currentFrequency * 2) (maxValue + amplitude)

/-- `Noise.octaveNoise` (Noise.ts lines 79-97): runs the octave loop from
`total = 0`, `amplitude = 1`, `currentFrequency = frequency`, `maxValue = 0`
and then normalizes, guarding against `maxValue = 0`. -/
def octaveNoise (rand : String → ℚ) (x z : ℚ) (octaves : ℕ)
    (persistence frequency : ℚ) : ℚ :=
  let r := octaveNoiseGo rand x z persistence octaves 0 1 frequency 0
  if r.2 = 0 then 0 else r.1 / r.2

end Noise

/-- An instance of the `Noise` class (`new Noise(seed)`), as created by the
`Chunk` constructor (Chunk.ts line 36).  The class only has static members,
so the per-instance `seed` field is never consulted by any noise method. -/
structure NoiseInstance where
  seed : String

/-- `this.noise.octaveNoise(...)` as used by `Chunk.generateCubes`
(Chunk.ts line 62): dispatches to the class-level (static) implementation,
which depends only on the global `WORLD_SEED`-keyed `rand` and the
arguments, never on the instance's `seed`. -/
def NoiseInstance.octaveNoise (_noise : NoiseInstance) (rand : String → ℚ)
    (x z : ℚ) (octaves : ℕ) (persistence frequency : ℚ) : ℚ :=
  Noise.octaveNoise rand x z octaves persistence frequency

namespace Terrain

/-- `baseHeight` (Chunk.ts line 47). -/
def baseHeight : ℚ := 10
/-- `terrainAmplitude` (Chunk.ts line 48). -/
def terrainAmplitude : ℚ := 80
/-- `noiseScale` (Chunk.ts line 49). -/
def noiseScale : ℚ := 0.02
/-- `octaves` (Chunk.ts line 50). -/
def octaves : ℕ := 4
/-- `persistence` (Chunk.ts line 51). -/
def persistence : ℚ := 1/2
/-- `frequency` (Chunk.ts line 52). -/
def frequency : ℚ := 1

/-- The un-clamped column height `Math.floor(baseHeight + noiseVal *
terrainAmplitude)` (Chunk.ts line 71) as a function of the global noise
source and the absolute world coordinates of the column alone. -/
def rawHeight (rand : String → ℚ) (worldX worldZ : ℤ) : ℤ :=
  ⌊baseHeight +
    Noise.octaveNoise rand ((worldX : ℚ) * noiseScale) ((worldZ : ℚ) * noiseScale)
      octaves persistence frequency * terrainAmplitude⌋

/-- The clamped column height `Math.max(0, Math.min(100, height))`
(Chunk.ts line 74), again a function of `rand` and world coordinates only. -/
def clampedHeight (rand : String → ℚ) (worldX worldZ : ℤ) : ℤ :=
  max 0 (min 100 (rawHeight rand worldX worldZ))

end Terrain

/-- The `Chunk` class (Chunk.ts lines 4-20).  `heightMap` is indexed
`[local z][local x]`; `cubePositionsF32` is the flat `(4 × cubes)` buffer. -/
structure Chunk where
  chunkX : ℤ
  chunkZ : ℤ
  size : ℕ
  seed : String
  minWorldX : ℤ
  minWorldZ : ℤ
  maxWorldX : ℤ
  maxWorldZ : ℤ
  heightMap : List (List ℤ)
  cubes : ℤ
  cubePositionsF32 : List ℚ

namespace Chunk

/-- The loop body of pass 1 of `Chunk.generateCubes` (Chunk.ts lines
58-76) for one column: multi-octave noise through the chunk's own
`NoiseInstance`, mapped to a height and clamped. -/
def columnHeightOf (rand : String → ℚ) (noise : NoiseInstance)
    (worldX worldZ : ℤ) : ℤ :=
  let noiseVal := noise.octaveNoise rand
    ((worldX : ℚ) * Terrain.noiseScale) ((worldZ : ℚ) * Terrain.noiseScale)
    Terrain.octaves Terrain.persistence Terrain.frequency
  max 0 (min 100 ⌊Terrain.baseHeight + noiseVal * Terrain.terrainAmplitude⌋)

/-- Pass 1 of `Chunk.generateCubes` (Chunk.ts lines 54-81), height-map part:
the double loop over local z index `i` and local x index `j` fills
`heightMap[i][j]` with the clamped height of world column
`(minWorldX + j, minWorldZ + i)`. -/
def heightMapOf (rand : String → ℚ) (noise : NoiseInstance)
    (chunkX chunkZ : ℤ) (size : ℕ) : List (List ℤ) :=
  (List.range size).map fun (i : ℕ) =>
    (List.range size).map fun (j : ℕ) =>
      columnHeightOf rand noise (chunkX * size + (j : ℤ)) (chunkZ * size + (i : ℤ))

/-- Pass 1 of `Chunk.generateCubes`, `totalCubes` accumulator (Chunk.ts
lines 55-81): sums `clampedHeight + 1` over every column of the grid. -/
def totalCubesOf (rand : String → ℚ) (noise : NoiseInstance)
    (chunkX chunkZ : ℤ) (size : ℕ) : ℤ :=
  ∑ i in Finset.range size, ∑ j in Finset.range size,
    (columnHeightOf rand noise (chunkX * size + (j : ℤ)) (chunkZ * size + (i : ℤ)) + 1)

/-- The inner `y` loop of pass 2 of `Chunk.generateCubes` (Chunk.ts lines
95-100): emits the four buffer entries `(worldX, y, worldZ, 0)` for each
`y` from `0` to `height` inclusive. -/
def cubeColumn (worldX worldZ : ℤ) (height : ℤ) : List ℚ :=
  (List.range (height.toNat + 1)).flatMap fun y =>
    [(worldX : ℚ), (y : ℚ), (worldZ : ℚ), 0]

/-- Pass 2 of `Chunk.generateCubes` (Chunk.ts lines 88-102): sequential
writes into the pre-sized buffer, reading the heights back from the stored
`heightMap`; the final fill index is the length of the emitted list. -/
def bufferOf (heightMap : List (List ℤ)) (minWorldX minWorldZ : ℤ)
    (size : ℕ) : List ℚ :=
  (List.range size).flatMap fun (i : ℕ) =>
    (List.range size).flatMap fun (j : ℕ) =>
      cubeColumn (minWorldX + (j : ℤ)) (minWorldZ + (i : ℤ))
        ((heightMap.getD i []).getD j 0)

/-- The `Chunk` constructor (Chunk.ts lines 23-43) followed by
`generateCubes`: computes world bounds, the chunk-specific seed string
`"${chunkX},${chunkZ}"`, the `NoiseInstance`, and the generated data. -/
def build (rand : String → ℚ) (chunkX chunkZ : ℤ) (size : ℕ) : Chunk :=
  let minWorldX : ℤ := chunkX * size
  let minWorldZ : ℤ := chunkZ * size
  let seed : String := toString chunkX ++ "," ++ toString chunkZ
  let noise : NoiseInstance := ⟨seed⟩
  let hm := heightMapOf rand noise chunkX chunkZ size
  { chunkX := chunkX
    chunkZ := chunkZ
    size := size
    seed := seed
    minWorldX := minWorldX
    minWorldZ := minWorldZ
    maxWorldX := minWorldX + size
    maxWorldZ := minWorldZ + size
    heightMap := hm
    cubes := totalCubesOf rand noise chunkX chunkZ size
    cubePositionsF32 := bufferOf hm minWorldX minWorldZ size }

/-- `Chunk.hasBlock` (Chunk.ts lines 113-135), including the redundant
second bounds check of lines 125-128. -/
def hasBlock (c : Chunk) (worldX worldY worldZ : ℤ) : Bool :=
  if worldX < c.minWorldX ∨ c.maxWorldX ≤ worldX ∨
     worldZ < c.minWorldZ ∨ c.maxWorldZ ≤ worldZ then
    false
  else
    let localX := worldX - c.minWorldX
    let localZ := worldZ - c.minWorldZ
    if localX < 0 ∨ (c.size : ℤ) ≤ localX ∨ localZ < 0 ∨ (c.size : ℤ) ≤ localZ then
      false
    else
      let terrainHeight := (c.heightMap.getD localZ.toNat []).getD localX.toNat 0
      decide (0 ≤ worldY ∧ worldY ≤ terrainHeight)

/-- `Chunk.numCubes` (Chunk.ts lines 141-143). -/
def numCubes (c : Chunk) : ℤ := c.cubes

/-- `Chunk.cubePositions` (Chunk.ts lines 137-139). -/
def cubePositions (c : Chunk) : List ℚ := c.cubePositionsF32

end Chunk

/-- The chunk-management and rendering-cache state of `MinecraftAnimation`
(App.ts lines 24-34).  `loadedChunks` models the JS `Map` keyed by
`"x,z"` (string keys on integer pairs are injective thanks to the `,`
separator, so an integer-pair key is faithful); the list order is the
`Map`'s insertion order. -/
structure WorldState where
  chunkSize : ℕ
  renderDistance : ℕ
  loadedChunks : List ((ℤ × ℤ) × Chunk)
  combinedCubeOffsets : List ℚ
  totalCubesToDraw : ℤ

namespace WorldState

/-- `this.loadedChunks.get(key)` on the association-list model. -/
def lookupChunk (st : WorldState) (k : ℤ × ℤ) : Option Chunk :=
  (st.loadedChunks.find? fun kc => decide (kc.1 = k)).map Prod.snd

/-- `MinecraftAnimation.isBlockAt` (App.ts lines 171-191): floor the three
coordinates, return `false` below `y = 0`, locate the owning chunk via
`Math.floor(ix / chunkSize)`, treat an unloaded chunk as empty, otherwise
delegate to `Chunk.hasBlock`. -/
def isBlockAt (st : WorldState) (worldX worldY worldZ : ℚ) : Bool :=
  let ix : ℤ := ⌊worldX⌋
  let iy : ℤ := ⌊worldY⌋
  let iz : ℤ := ⌊worldZ⌋
  if iy < 0 then false
  else
    let chunkX : ℤ := ⌊(ix : ℚ) / (st.chunkSize : ℚ)⌋
    let chunkZ : ℤ := ⌊(iz : ℚ) / (st.chunkSize : ℚ)⌋
    match st.lookupChunk (chunkX, chunkZ) with
    | none => false
    | some chunk => chunk.hasBlock ix iy iz

/-- `MinecraftAnimation.aggregateChunkData` (App.ts lines 363-400): sums
`numCubes` over all loaded chunks and rebuilds the combined offset buffer
by copying each loaded chunk's `cubePositions()` at consecutive offsets —
i.e. by concatenation in iteration order. -/
def aggregateChunkData (st : WorldState) : WorldState :=
  { st with
    totalCubesToDraw := (st.loadedChunks.map fun kc => kc.2.numCubes).sum
    combinedCubeOffsets := st.loadedChunks.flatMap fun kc => kc.2.cubePositions }

/-- The required Chebyshev neighborhood, in the iteration order of the
double loop of `MinecraftAnimation.updateChunks` (App.ts lines 323-333):
`dx` from `-renderDistance` to `renderDistance` outer, `dz` inner. -/
def requiredList (centerX centerZ : ℤ) (renderDistance : ℕ) : List (ℤ × ℤ) :=
  (List.range (2 * renderDistance + 1)).flatMap fun (a : ℕ) =>
    (List.range (2 * renderDistance + 1)).map fun (b : ℕ) =>
      (centerX + (a : ℤ) - (renderDistance : ℤ),
       centerZ + (b : ℤ) - (renderDistance : ℤ))

/-- `MinecraftAnimation.updateChunks` (App.ts lines 318-360): collect the
required set and the chunks to load (those required but not present),
delete every loaded chunk not required, insert a freshly built `Chunk` for
every chunk to load (JS `Map.set` appends new keys in insertion order),
and re-aggregate exactly when `newChunksLoaded` or when the pre-deletion
key count differs from the final map size. -/
def updateChunks (rand : String → ℚ) (st : WorldState) (centerX centerZ : ℤ) :
    WorldState :=
  let required := requiredList centerX centerZ st.renderDistance
  let chunksToLoad := required.filter fun k => (st.lookupChunk k).isNone
  let afterUnload := st.loadedChunks.filter fun kc => decide (kc.1 ∈ required)
  let afterLoad := afterUnload ++
    chunksToLoad.map fun k => (k, Chunk.build rand k.1 k.2 st.chunkSize)
  let st1 := { st with loadedChunks := afterLoad }
  if chunksToLoad ≠ [] ∨ st.loadedChunks.length ≠ afterLoad.length then
    aggregateChunkData st1
  else
    st1

/-- The well-formedness invariant of the streamer state: the map has no
duplicate keys, every stored chunk is the one the `Chunk` constructor
builds for its key, and the rendering cache (`combinedCubeOffsets`,
`totalCubesToDraw`) is consistent with the loaded chunks — the buffer
holds `4 ×` the total cube count entries. -/
def consistent (rand : String → ℚ) (st : WorldState) : Prop :=
  (st.loadedChunks.map Prod.fst).Nodup ∧
  (∀ kc ∈ st.loadedChunks, kc.2 = Chunk.build rand kc.1.1 kc.1.2 st.chunkSize) ∧
  (st.combinedCubeOffsets.length : ℤ) =
    4 * (st.loadedChunks.map fun kc => kc.2.numCubes).sum ∧
  st.totalCubesToDraw = (st.loadedChunks.map fun kc => kc.2.numCubes).sum

/-- The initial streamer state of the `MinecraftAnimation` constructor
(App.ts lines 93-99): empty map, empty buffer, zero count, with the
declared `chunkSize = 64` and `renderDistance = 1`. -/
def initial : WorldState :=
  { chunkSize := 64
    renderDistance := 1
    loadedChunks := []
    combinedCubeOffsets := []
    totalCubesToDraw := 0 }

end WorldState

namespace Player

/-- `gravity` (App.ts line 46). -/
def gravity : ℚ := -25
/-- `jumpSpeed` (App.ts line 47). -/
def jumpSpeed : ℚ := 10
/-- `playerHeight` (App.ts line 48). -/
def playerHeight : ℚ := 2
/-- `playerRadius` (App.ts line 49). -/
def playerRadius : ℚ := 0.4
/-- `terminalVelocity` (App.ts line 50). -/
def terminalVelocity : ℚ := -50
/-- `chunkSize` (App.ts line 27), used by `reset` for the respawn point. -/
def chunkSize : ℚ := 64

/-- A `Vec3` of the TSM library, restricted to the fields the physics code
uses. -/
structure Vec3Q where
  x : ℚ
  y : ℚ
  z : ℚ
deriving DecidableEq

/-- The player-physics state mutated by `updatePlayer` (App.ts lines
43-45). -/
structure PlayerState where
  playerPosition : Vec3Q
  playerVelocity : Vec3Q
  isJumping : Bool
deriving DecidableEq

/-- `MinecraftAnimation.checkCollision` (App.ts lines 280-301): the three
`for` loops have constant bounds and steps (`dy` over `0, 1, 2`; `dx` and
`dz` over `-playerRadius, playerRadius`), unrolled here into sample lists,
followed by the extra center-at-feet sample. -/
def checkCollision (world : ℚ → ℚ → ℚ → Bool) (checkPos : Vec3Q) : Bool :=
  (([0, playerHeight / 2, playerHeight] : List ℚ).any fun dy =>
    (([-playerRadius, playerRadius] : List ℚ).any fun dx =>
      (([-playerRadius, playerRadius] : List ℚ).any fun dz =>
        world (checkPos.x + dx) (checkPos.y - dy) (checkPos.z + dz))))
  || world checkPos.x (checkPos.y - playerHeight) checkPos.z

/-- The respawn state set by `MinecraftAnimation.reset` (App.ts lines
110-114): position back over the center of chunk (0,0), zero velocity,
not jumping.  (`reset` also reloads chunks; that part lives in
`WorldState` and does not affect the player fields.) -/
def resetState : PlayerState :=
  { playerPosition := ⟨chunkSize * (1/2), 105, chunkSize * (1/2)⟩
    playerVelocity := ⟨0, 0, 0⟩
    isJumping := false }

/-- `MinecraftAnimation.updatePlayer` (App.ts lines 195-277): clamp the
time step to 100 ms, integrate gravity clamped at terminal velocity, form
the candidate displacement from the walk direction and the vertical
velocity, then resolve the three axes in order Y, X, Z, each axis moving
only if the moved bounding box is collision-free (with the Y snap to rest
atop/below the colliding block), and finally apply the fell-out-of-world
reset when the resolved `y` is below `-50`. -/
def updatePlayer (world : ℚ → ℚ → ℚ → Bool) (walkDir : ℚ × ℚ)
    (deltaTime : ℚ) (s : PlayerState) : PlayerState :=
  let dt := min deltaTime (1/10)
  let vyGravity := s.playerVelocity.y + gravity * dt
  let vy := max vyGravity terminalVelocity
  let moveX := walkDir.1 * 5 * dt
  let moveY := vy * dt
  let moveZ := walkDir.2 * 5 * dt
  -- Y axis
  let yStep : Vec3Q × ℚ × Bool :=
    if moveY ≠ 0 then
      let checkPosY : Vec3Q :=
        ⟨s.playerPosition.x, s.playerPosition.y + moveY, s.playerPosition.z⟩
      if checkCollision world checkPosY then
        if moveY < 0 then
          (⟨s.playerPosition.x,
            ((⌊s.playerPosition.y - playerHeight⌋ : ℤ) : ℚ) + playerHeight + 0.001,
            s.playerPosition.z⟩, 0, false)
        else
          (⟨s.playerPosition.x, ((⌊checkPosY.y⌋ : ℤ) : ℚ) - 0.001,
            s.playerPosition.z⟩, 0, s.isJumping)
      else
        (⟨s.playerPosition.x, s.playerPosition.y + moveY, s.playerPosition.z⟩,
          vy, s.isJumping)
    else
      (s.playerPosition, vy, s.isJumping)
  let posY := yStep.1
  let vyFinal := yStep.2.1
  let jumpFinal := yStep.2.2
  -- X axis (uses the updated Y position)
  let xStep : ℚ × ℚ :=
    if moveX ≠ 0 then
      if checkCollision world ⟨posY.x + moveX, posY.y, posY.z⟩ then
        (posY.x, 0)
      else
        (posY.x + moveX, s.playerVelocity.x)
    else
      (posY.x, s.playerVelocity.x)
  -- Z axis (uses the updated Y and X positions)
  let zStep : ℚ × ℚ :=
    if moveZ ≠ 0 then
      if checkCollision world ⟨xStep.1, posY.y, posY.z + moveZ⟩ then
        (posY.z, 0)
      else
        (posY.z + moveZ, s.playerVelocity.z)
    else
      (posY.z, s.playerVelocity.z)
  let finalPos : Vec3Q := ⟨xStep.1, posY.y, zStep.1⟩
  if finalPos.y < -50 then
    resetState
  else
    { playerPosition := finalPos
      playerVelocity := ⟨xStep.2, vyFinal, zStep.2⟩
      isJumping := jumpFinal }

/-- The block query of the collision scenario of the spec (§8): terrain in
which every column of every (loaded) chunk has height `h`.  This is
`isBlockAt` specialized to that terrain: the early `iy < 0` return and
`hasBlock`'s `0 ≤ iy ≤ height` test collapse to a test on `⌊worldY⌋`
alone, since every horizontal position lies inside a loaded chunk. -/
def flatWorldBlockAt (h : ℤ) (_worldX worldY _worldZ : ℚ) : Bool :=
  decide (0 ≤ ⌊worldY⌋ ∧ ⌊worldY⌋ ≤ h)

/-- One physics step of the spec's collision scenario: flat height-5
terrain, no walk input, a fixed 100 ms time step. -/
def flatStep (s : PlayerState) : PlayerState :=
  updatePlayer (flatWorldBlockAt 5) (0, 0) (1/10) s

/-- The reference point of the claimed scenario: position `y = 5.5`,
zero velocity. -/
def scenarioStart : PlayerState :=
  { playerPosition := ⟨32, 11/2, 32⟩
    playerVelocity := ⟨0, 0, 0⟩
    isJumping := false }

/-- The amended scenario start: the player's feet (`position -
playerHeight`) begin half a block above the terrain surface `y = 6`,
i.e. position `y = 8.5`. -/
def scenarioStartAbove : PlayerState :=
  { playerPosition := ⟨32, 17/2, 32⟩
    playerVelocity := ⟨0, 0, 0⟩
    isJumping := false }

end Player

/-- A concrete model of the `Rand` PRNG used for witnesses: every seed
string yields the first output `0`, which lies in the documented `[0,1)`
output range. -/
def constRand : String → ℚ := fun _ => 0

/-! ### Helper lemmas about the noise layer -/

theorem fade_zero : Noise.fade 0 = 0 := by
  simp [Noise.fade]

theorem lerp_zero (a b : ℚ) : Noise.lerp a b 0 = a := by
  simp [Noise.lerp]

theorem fade_mem (t : ℚ) (h0 : 0 ≤ t) (h1 : t ≤ 1) :
    0 ≤ Noise.fade t ∧ Noise.fade t ≤ 1 := by
  constructor
  · have ht3 : 0 ≤ t * t * t := by positivity
    have hq : 0 ≤ t * (t * 6 - 15) + 10 := by nlinarith [sq_nonneg (4 * t - 5)]
    calc (0:ℚ) ≤ (t * t * t) * (t * (t * 6 - 15) + 10) := mul_nonneg ht3 hq
      _ = Noise.fade t := rfl
  · have h1t : 0 ≤ 1 - t := by linarith
    have hq2 : (0:ℚ) ≤ 6 * t ^ 2 + 3 * t + 1 := by nlinarith [sq_nonneg (4 * t + 1)]
    have hfactor : 1 - Noise.fade t =
        (1 - t) * (1 - t) * (1 - t) * (6 * t ^ 2 + 3 * t + 1) := by
      unfold Noise.fade; ring
    nlinarith [mul_nonneg (mul_nonneg (mul_nonneg h1t h1t) h1t) hq2, hfactor]

theorem lerp_mem (a b t : ℚ) (ha0 : 0 ≤ a) (ha1 : a < 1) (hb0 : 0 ≤ b)
    (hb1 : b < 1) (ht0 : 0 ≤ t) (ht1 : t ≤ 1) :
    0 ≤ Noise.lerp a b t ∧ Noise.lerp a b t < 1 := by
  unfold Noise.lerp
  constructor
  · nlinarith
  · rcases eq_or_lt_of_le ht1 with h | h
    · subst h; nlinarith
    · nlinarith [mul_pos (sub_pos.2 h) (sub_pos.2 ha1)]

theorem valueNoise_mem (rand : String → ℚ)
    (hrand : ∀ s, 0 ≤ rand s ∧ rand s < 1) (x z : ℚ) :
    0 ≤ Noise.valueNoise rand x z ∧ Noise.valueNoise rand x z < 1 := by
  unfold Noise.valueNoise
  have htx0 : (0:ℚ) ≤ x - (⌊x⌋ : ℚ) := sub_nonneg.2 (Int.floor_le x)
  have htx1 : x - (⌊x⌋ : ℚ) ≤ 1 := by
    have := Int.lt_floor_add_one x; linarith
  have htz0 : (0:ℚ) ≤ z - (⌊z⌋ : ℚ) := sub_nonneg.2 (Int.floor_le z)
  have htz1 : z - (⌊z⌋ : ℚ) ≤ 1 := by
    have := Int.lt_floor_add_one z; linarith
  have hu := fade_mem _ htx0 htx1
  have hv := fade_mem _ htz0 htz1
  have h00 := hrand (Noise.getCoordinateSeed ⌊x⌋ ⌊z⌋)
  have h10 := hrand (Noise.getCoordinateSeed (⌊x⌋ + 1) ⌊z⌋)
  have h01 := hrand (Noise.getCoordinateSeed ⌊x⌋ (⌊z⌋ + 1))
  have h11 := hrand (Noise.getCoordinateSeed (⌊x⌋ + 1) (⌊z⌋ + 1))
  have hx0 := lerp_mem _ _ _ h00.1 h00.2 h10.1 h10.2 hu.1 hu.2
  have hx1 := lerp_mem _ _ _ h01.1 h01.2 h11.1 h11.2 hu.1 hu.2
  exact lerp_mem _ _ _ hx0.1 hx0.2 hx1.1 hx1.2 hv.1 hv.2

/-- Closed form of the octave loop: starting from accumulators
`(total, amplitude, currentFrequency, maxValue) = (t, a, f, m)` and running
`n` iterations yields the two geometric-weighted sums. -/
theorem octaveNoiseGo_spec (rand : String → ℚ) (x z p : ℚ) (n : ℕ)
    (t a f m : ℚ) :
    Noise.octaveNoiseGo rand x z p n t a f m =
      (t + ∑ i in Finset.range n,
          a * p ^ i * Noise.valueNoise rand (x * (f * 2 ^ i)) (z * (f * 2 ^ i)),
        m + a * ∑ i in Finset.range n, p ^ i) := by
  induction n generalizing t a f m with
  | zero => simp [Noise.octaveNoiseGo]
  | succ n ih =>
    rw [Noise.octaveNoiseGo, ih, Prod.mk.injEq]
    have h1 : ∀ i : ℕ, a * p * p ^ i = a * p ^ (i + 1) := fun i => by
      rw [pow_succ]; ring
    have h2 : ∀ i : ℕ, f * 2 * 2 ^ i = f * 2 ^ (i + 1) := fun i => by
      rw [pow_succ]; ring
    have h3 : ∀ i : ℕ, (p : ℚ) ^ (i + 1) = p * p ^ i := fun i => by
      rw [pow_succ]; ring
    refine ⟨?_, ?_⟩
    · rw [Finset.sum_range_succ']
      simp only [h1, h2, pow_zero, one_mul, mul_one]
      ring
    · rw [Finset.sum_range_succ']
      simp only [h3, pow_zero]
      rw [← Finset.mul_sum]
      ring

/-- The final accumulators of the full octave loop as used by
`octaveNoise`. -/
theorem octaveNoiseGo_run (rand : String → ℚ) (x z p f : ℚ) (n : ℕ) :
    Noise.octaveNoiseGo rand x z p n 0 1 f 0 =
      (∑ i in Finset.range n,
          p ^ i * Noise.valueNoise rand (x * (f * 2 ^ i)) (z * (f * 2 ^ i)),
        ∑ i in Finset.range n, p ^ i) := by
  rw [octaveNoiseGo_spec]
  simp

/-- With at least one octave and positive persistence, `octaveNoise` is the
normalized geometric-weighted sum, and it lies in `[0, 1)` whenever the
lattice values do. -/
theorem octaveNoise_eq_div (rand : String → ℚ) (x z : ℚ) (o : ℕ) (p f : ℚ)
    (ho : 1 ≤ o) (hp : 0 < p) :
    Noise.octaveNoise rand x z o p f =
      (∑ i in Finset.range o,
          p ^ i * Noise.valueNoise rand (x * (f * 2 ^ i)) (z * (f * 2 ^ i))) /
        (∑ i in Finset.range o, p ^ i) := by
  have hpos : 0 < ∑ i in Finset.range o, p ^ i :=
    Finset.sum_pos (fun i _ => pow_pos hp i)
      (Finset.nonempty_range_iff.2 (by omega))
  unfold Noise.octaveNoise
  rw [octaveNoiseGo_run]
  simp only
  rw [if_neg (ne_of_gt hpos)]

theorem octaveNoise_mem (rand : String → ℚ)
    (hrand : ∀ s, 0 ≤ rand s ∧ rand s < 1) (x z : ℚ) (o : ℕ) (p f : ℚ)
    (ho : 1 ≤ o) (hp : 0 < p) :
    0 ≤ Noise.octaveNoise rand x z o p f ∧ Noise.octaveNoise rand x z o p f < 1 := by
  have hpos : 0 < ∑ i in Finset.range o, p ^ i :=
    Finset.sum_pos (fun i _ => pow_pos hp i)
      (Finset.nonempty_range_iff.2 (by omega))
  rw [octaveNoise_eq_div rand x z o p f ho hp]
  constructor
  · apply div_nonneg _ hpos.le
    exact Finset.sum_nonneg fun i _ => mul_nonneg (pow_pos hp i).le
      (valueNoise_mem rand hrand _ _).1
  · rw [div_lt_one hpos]
    apply Finset.sum_lt_sum_of_nonempty (Finset.nonempty_range_iff.2 (by omega))
    intro i _
    calc p ^ i * Noise.valueNoise rand (x * (f * 2 ^ i)) (z * (f * 2 ^ i))
        < p ^ i * 1 :=
          (mul_lt_mul_left (pow_pos hp i)).2 (valueNoise_mem rand hrand _ _).2
      _ = p ^ i := mul_one _

/-! ### Claim theorems: noise layer -/

/-- C7: for every integer pair `(x, z)`, `valueNoise (x, z)` equals
`getConstantRandomValue (x, z)` exactly — the fractional parts are zero,
`fade 0 = 0`, and the bilinear interpolation reproduces the lattice corner
value with no discrepancy (arithmetic on `ℚ` is exact, and every step used
here — `x - ⌊x⌋ = 0`, `fade 0 = 0`, `lerp a b 0 = a` — is also exact in
IEEE doubles). -/
theorem valueNoise_at_lattice (rand : String → ℚ) (x z : ℤ) :
    Noise.valueNoise rand (x : ℚ) (z : ℚ) =
      Noise.getConstantRandomValue rand x z := by
  unfold Noise.valueNoise
  simp only [Int.floor_intCast, sub_self, fade_zero, lerp_zero]

/-- C9: with `octaves = 0` the loop accumulates `maxValue = 0`, and
`octaveNoise` returns exactly `0` through the `maxValue === 0` guard rather
than dividing by zero; the division branch is taken only when `maxValue`
is nonzero. -/
theorem octaveNoise_zero_octaves (rand : String → ℚ) (x z p f : ℚ) :
    Noise.octaveNoise rand x z 0 p f = 0 := by
  simp [Noise.octaveNoise, Noise.octaveNoiseGo]

/-- C6: for `octaves ≥ 1`, `persistence ∈ (0,1]` and `frequency > 0`,
`octaveNoise` equals the geometric-weighted sum
`∑ persistence^i · valueNoise(x·frequency·2^i, z·frequency·2^i)` divided by
`∑ persistence^i`, and the result lies in `[0,1]` (given the documented
`[0,1)` range of the lattice PRNG values). -/
theorem octaveNoise_spec (rand : String → ℚ)
    (hrand : ∀ s, 0 ≤ rand s ∧ rand s < 1) (x z : ℚ) (o : ℕ) (p f : ℚ)
    (ho : 1 ≤ o) (hp0 : 0 < p) (hp1 : p ≤ 1) (hf : 0 < f) :
    Noise.octaveNoise rand x z o p f =
      (∑ i in Finset.range o,
          p ^ i * Noise.valueNoise rand (x * f * 2 ^ i) (z * f * 2 ^ i)) /
        (∑ i in Finset.range o, p ^ i) ∧
    0 ≤ Noise.octaveNoise rand x z o p f ∧
    Noise.octaveNoise rand x z o p f ≤ 1 := by
  refine ⟨?_, (octaveNoise_mem rand hrand x z o p f ho hp0).1,
    (octaveNoise_mem rand hrand x z o p f ho hp0).2.le⟩
  rw [octaveNoise_eq_div rand x z o p f ho hp0]
  simp only [mul_assoc]

/-- Witness for C6 at a concrete input. -/
theorem octaveNoise_spec_witness :
    Noise.octaveNoise constRand 0 0 1 (1/2) 1 =
      (∑ i in Finset.range 1,
          (1/2 : ℚ) ^ i * Noise.valueNoise constRand (0 * 1 * 2 ^ i) (0 * 1 * 2 ^ i)) /
        (∑ i in Finset.range 1, (1/2 : ℚ) ^ i) ∧
    0 ≤ Noise.octaveNoise constRand 0 0 1 (1/2) 1 ∧
    Noise.octaveNoise constRand 0 0 1 (1/2) 1 ≤ 1 :=
  octaveNoise_spec constRand (fun s => by norm_num [constRand]) 0 0 1 (1/2) 1
    (le_refl 1) (by norm_num) (by norm_num) one_pos

/-! ### Helper lemmas about chunk generation -/

theorem getD_map_range {α : Type} (n : ℕ) (f : ℕ → α) (d : α) (i : ℕ)
    (h : i < n) : ((List.range n).map f).getD i d = f i := by
  rw [List.getD_eq_getElem?_getD]
  simp [List.getElem?_range, h]

theorem length_flatMap_range {α : Type} (n : ℕ) (f : ℕ → List α) :
    ((List.range n).flatMap f).length = ∑ i in Finset.range n, (f i).length := by
  induction n with
  | zero => simp
  | succ n ih =>
    rw [List.range_succ, List.flatMap_append, Finset.sum_range_succ]
    simp [ih]

/-- The per-column loop body computes exactly the global
coordinate-indexed clamped height: the chunk's `NoiseInstance` (and hence
its per-chunk seed string) plays no role. -/
theorem columnHeightOf_eq (rand : String → ℚ) (noise : NoiseInstance)
    (worldX worldZ : ℤ) :
    Chunk.columnHeightOf rand noise worldX worldZ =
      Terrain.clampedHeight rand worldX worldZ := rfl

theorem heightMapOf_entry (rand : String → ℚ) (noise : NoiseInstance)
    (chunkX chunkZ : ℤ) (size i j : ℕ) (hi : i < size) (hj : j < size) :
    ((Chunk.heightMapOf rand noise chunkX chunkZ size).getD i []).getD j 0 =
      Terrain.clampedHeight rand (chunkX * size + j) (chunkZ * size + i) := by
  unfold Chunk.heightMapOf
  rw [getD_map_range _ _ _ _ hi, getD_map_range _ _ _ _ hj, columnHeightOf_eq]

theorem build_heightMap (rand : String → ℚ) (chunkX chunkZ : ℤ) (size : ℕ) :
    (Chunk.build rand chunkX chunkZ size).heightMap =
      Chunk.heightMapOf rand ⟨toString chunkX ++ "," ++ toString chunkZ⟩
        chunkX chunkZ size := rfl

theorem build_cubes (rand : String → ℚ) (chunkX chunkZ : ℤ) (size : ℕ) :
    (Chunk.build rand chunkX chunkZ size).cubes =
      Chunk.totalCubesOf rand ⟨toString chunkX ++ "," ++ toString chunkZ⟩
        chunkX chunkZ size := rfl

theorem build_cubePositions (rand : String → ℚ) (chunkX chunkZ : ℤ) (size : ℕ) :
    (Chunk.build rand chunkX chunkZ size).cubePositionsF32 =
      Chunk.bufferOf
        (Chunk.heightMapOf rand ⟨toString chunkX ++ "," ++ toString chunkZ⟩
          chunkX chunkZ size)
        (chunkX * size) (chunkZ * size) size := rfl

theorem cubeColumn_length (worldX worldZ h : ℤ) :
    (Chunk.cubeColumn worldX worldZ h).length = 4 * (h.toNat + 1) := by
  unfold Chunk.cubeColumn
  rw [length_flatMap_range]
  simp [Finset.sum_const, Finset.card_range, Nat.mul_comm]

theorem clampedHeight_nonneg (rand : String → ℚ) (worldX worldZ : ℤ) :
    0 ≤ Terrain.clampedHeight rand worldX worldZ := le_max_left 0 _

/-- The buffer built by pass 2 of a constructed chunk has length exactly
`4 * cubes` — the sequential fill ends exactly at the pre-sized buffer
length. -/
theorem build_length_eq (rand : String → ℚ) (chunkX chunkZ : ℤ) (size : ℕ) :
    ((Chunk.build rand chunkX chunkZ size).cubePositionsF32.length : ℤ) =
      4 * (Chunk.build rand chunkX chunkZ size).cubes := by
  rw [build_cubePositions, build_cubes]
  unfold Chunk.bufferOf Chunk.totalCubesOf
  rw [length_flatMap_range]
  have hlen : ∀ i ∈ Finset.range size,
      (((List.range size).flatMap fun j =>
        Chunk.cubeColumn ((chunkX * size : ℤ) + j) ((chunkZ * size : ℤ) + i)
          (((Chunk.heightMapOf rand
              ⟨toString chunkX ++ "," ++ toString chunkZ⟩ chunkX chunkZ
                size).getD i []).getD j 0)).length) =
      ∑ j in Finset.range size,
        4 * ((Terrain.clampedHeight rand (chunkX * size + j)
          (chunkZ * size + i)).toNat + 1) := by
    intro i hi
    rw [length_flatMap_range]
    refine Finset.sum_congr rfl fun j hj => ?_
    rw [cubeColumn_length,
      heightMapOf_entry rand _ chunkX chunkZ size i j
        (Finset.mem_range.1 hi) (Finset.mem_range.1 hj)]
  rw [Finset.sum_congr rfl hlen]
  push_cast
  rw [Finset.mul_sum]
  refine Finset.sum_congr rfl fun i _ => ?_
  rw [Finset.mul_sum]
  refine Finset.sum_congr rfl fun j _ => ?_
  rw [columnHeightOf_eq,
    Int.toNat_of_nonneg (clampedHeight_nonneg rand _ _)]

/-- The entry-wise height bounds: the raw floor height is in `[10, 89]`,
so the `[0, 100]` clamp is the identity on it. -/
theorem rawHeight_mem (rand : String → ℚ)
    (hrand : ∀ s, 0 ≤ rand s ∧ rand s < 1) (worldX worldZ : ℤ) :
    10 ≤ Terrain.rawHeight rand worldX worldZ ∧
      Terrain.rawHeight rand worldX worldZ ≤ 89 := by
  have h := octaveNoise_mem rand hrand ((worldX : ℚ) * Terrain.noiseScale)
    ((worldZ : ℚ) * Terrain.noiseScale) Terrain.octaves Terrain.persistence
    Terrain.frequency (by norm_num [Terrain.octaves])
    (by norm_num [Terrain.persistence])
  unfold Terrain.rawHeight
  constructor
  · apply Int.le_floor.2
    push_cast
    unfold Terrain.baseHeight Terrain.terrainAmplitude
    nlinarith [h.1]
  · have hlt : Terrain.baseHeight +
        Noise.octaveNoise rand ((worldX : ℚ) * Terrain.noiseScale)
          ((worldZ : ℚ) * Terrain.noiseScale) Terrain.octaves
          Terrain.persistence Terrain.frequency * Terrain.terrainAmplitude <
        (((90 : ℤ) : ℚ)) := by
      push_cast
      unfold Terrain.baseHeight Terrain.terrainAmplitude
      nlinarith [h.2]
    have h90 := Int.floor_lt.2 hlt
    omega

theorem clampedHeight_eq_raw (rand : String → ℚ)
    (hrand : ∀ s, 0 ≤ rand s ∧ rand s < 1) (worldX worldZ : ℤ) :
    Terrain.clampedHeight rand worldX worldZ =
      Terrain.rawHeight rand worldX worldZ := by
  have h := rawHeight_mem rand hrand worldX worldZ
  unfold Terrain.clampedHeight
  omega

/-! ### Claim theorems: chunk generation -/

/-- C1: for every world column, the terrain height stored during chunk
generation is the global per-coordinate function
`Terrain.clampedHeight rand (chunkX·size + j, chunkZ·size + i)` of the
world-seed-keyed noise source and the absolute world coordinates alone:
the first conjunct holds for an arbitrary `NoiseInstance` (arbitrary
per-chunk seed string), so the height — and in particular every lattice
noise value feeding it, including those on the shared edge of two
adjacent chunks — is independent of `chunkX`, `chunkZ` and the per-chunk
seed except through the absolute coordinates; the second conjunct
specializes to the chunk the constructor actually builds. -/
theorem heightMap_entry_global (rand : String → ℚ) (noise : NoiseInstance)
    (chunkX chunkZ : ℤ) (size i j : ℕ) (hi : i < size) (hj : j < size) :
    ((Chunk.heightMapOf rand noise chunkX chunkZ size).getD i []).getD j 0 =
      Terrain.clampedHeight rand (chunkX * size + j) (chunkZ * size + i) ∧
    (((Chunk.build rand chunkX chunkZ size).heightMap.getD i []).getD j 0 =
      Terrain.clampedHeight rand (chunkX * size + j) (chunkZ * size + i)) := by
  refine ⟨heightMapOf_entry rand noise chunkX chunkZ size i j hi hj, ?_⟩
  rw [build_heightMap]
  exact heightMapOf_entry rand _ chunkX chunkZ size i j hi hj

/-- Witness for C1: chunks `(0,0)` and `(1,0)` of size 1 (with their
respective constructor-built seeds) both produce the global height
function at their world columns. -/
theorem heightMap_entry_global_witness :
    (((Chunk.heightMapOf constRand ⟨"0,0"⟩ 0 0 1).getD 0 []).getD 0 0 =
      Terrain.clampedHeight constRand 0 0 ∧
    (((Chunk.build constRand 0 0 1).heightMap.getD 0 []).getD 0 0 =
      Terrain.clampedHeight constRand 0 0)) ∧
    (((Chunk.heightMapOf constRand ⟨"1,0"⟩ 1 0 1).getD 0 []).getD 0 0 =
      Terrain.clampedHeight constRand 1 0 ∧
    (((Chunk.build constRand 1 0 1).heightMap.getD 0 []).getD 0 0 =
      Terrain.clampedHeight constRand 1 0)) := by
  constructor
  · have h := heightMap_entry_global constRand ⟨"0,0"⟩ 0 0 1 0 0
      (by norm_num) (by norm_num)
    simpa using h
  · have h := heightMap_entry_global constRand ⟨"1,0"⟩ 1 0 1 0 0
      (by norm_num) (by norm_num)
    simpa using h

/-- C3: for every constructed chunk, `numCubes()` is the sum over all
columns of `heightMap value + 1`, and the pass-2 fill emits a buffer of
length exactly `4 · numCubes()` — the fill index ends exactly at the
pre-sized buffer length, with no overrun. -/
theorem generateCubes_count_spec (rand : String → ℚ) (chunkX chunkZ : ℤ)
    (size : ℕ) :
    (Chunk.build rand chunkX chunkZ size).numCubes =
      (∑ i in Finset.range size, ∑ j in Finset.range size,
        ((((Chunk.build rand chunkX chunkZ size).heightMap.getD i []).getD j 0)
          + 1)) ∧
    (((Chunk.build rand chunkX chunkZ size).cubePositionsF32.length : ℤ) =
      4 * (Chunk.build rand chunkX chunkZ size).numCubes) := by
  constructor
  · show (Chunk.build rand chunkX chunkZ size).cubes = _
    rw [build_cubes, build_heightMap]
    unfold Chunk.totalCubesOf
    refine Finset.sum_congr rfl fun i hi => Finset.sum_congr rfl fun j hj => ?_
    rw [heightMapOf_entry rand _ chunkX chunkZ size i j
      (Finset.mem_range.1 hi) (Finset.mem_range.1 hj), columnHeightOf_eq]
  · exact build_length_eq rand chunkX chunkZ size

/-- C10: every generated height-map entry lies in `[10, 90]` (indeed in
`[10, 89]`), the `[0, 100]` clamp never alters the computed raw height,
every column holds at least 11 blocks, and `numCubes ≥ 11·size²`. -/
theorem heightMap_bounds (rand : String → ℚ)
    (hrand : ∀ s, 0 ≤ rand s ∧ rand s < 1) (chunkX chunkZ : ℤ)
    (size i j : ℕ) (hi : i < size) (hj : j < size) :
    (10 ≤ (((Chunk.build rand chunkX chunkZ size).heightMap.getD i []).getD j 0) ∧
      (((Chunk.build rand chunkX chunkZ size).heightMap.getD i []).getD j 0) ≤ 90) ∧
    (((Chunk.build rand chunkX chunkZ size).heightMap.getD i []).getD j 0) =
      Terrain.rawHeight rand (chunkX * size + j) (chunkZ * size + i) ∧
    11 ≤ (((Chunk.build rand chunkX chunkZ size).heightMap.getD i []).getD j 0) + 1 ∧
    11 * (size : ℤ) ^ 2 ≤ (Chunk.build rand chunkX chunkZ size).numCubes := by
  have hentry : (((Chunk.build rand chunkX chunkZ size).heightMap.getD i []).getD j 0) =
      Terrain.clampedHeight rand (chunkX * size + j) (chunkZ * size + i) := by
    rw [build_heightMap]
    exact heightMapOf_entry rand _ chunkX chunkZ size i j hi hj
  have hraw := rawHeight_mem rand hrand (chunkX * size + j) (chunkZ * size + i)
  have hclamp := clampedHeight_eq_raw rand hrand (chunkX * size + j) (chunkZ * size + i)
  refine ⟨⟨?_, ?_⟩, ?_, ?_, ?_⟩
  · rw [hentry, hclamp]; omega
  · rw [hentry, hclamp]; omega
  · rw [hentry, hclamp]
  · rw [hentry, hclamp]; omega
  · show 11 * (size : ℤ) ^ 2 ≤ (Chunk.build rand chunkX chunkZ size).cubes
    rw [build_cubes]
    unfold Chunk.totalCubesOf
    calc 11 * (size : ℤ) ^ 2
        = ∑ a in Finset.range size, ∑ b in Finset.range size, (11 : ℤ) := by
          simp [Finset.sum_const, Finset.card_range]; ring
      _ ≤ _ := by
          refine Finset.sum_le_sum fun a _ => Finset.sum_le_sum fun b _ => ?_
          rw [columnHeightOf_eq,
            clampedHeight_eq_raw rand hrand (chunkX * size + b) (chunkZ * size + a)]
          have := rawHeight_mem rand hrand (chunkX * size + b) (chunkZ * size + a)
          omega

/-- Witness for C10 at a concrete chunk. -/
theorem heightMap_bounds_witness :
    (10 ≤ (((Chunk.build constRand 0 0 1).heightMap.getD 0 []).getD 0 0) ∧
      (((Chunk.build constRand 0 0 1).heightMap.getD 0 []).getD 0 0) ≤ 90) ∧
    (((Chunk.build constRand 0 0 1).heightMap.getD 0 []).getD 0 0) =
      Terrain.rawHeight constRand (0 * 1 + 0) (0 * 1 + 0) ∧
    11 ≤ (((Chunk.build constRand 0 0 1).heightMap.getD 0 []).getD 0 0) + 1 ∧
    11 * ((1 : ℕ) : ℤ) ^ 2 ≤ (Chunk.build constRand 0 0 1).numCubes :=
  heightMap_bounds constRand (fun s => by norm_num [constRand]) 0 0 1 0 0
    (by norm_num) (by norm_num)

/-! ### Helper lemmas about block queries -/

theorem build_minWorldX (rand : String → ℚ) (chunkX chunkZ : ℤ) (size : ℕ) :
    (Chunk.build rand chunkX chunkZ size).minWorldX = chunkX * size := rfl

theorem build_minWorldZ (rand : String → ℚ) (chunkX chunkZ : ℤ) (size : ℕ) :
    (Chunk.build rand chunkX chunkZ size).minWorldZ = chunkZ * size := rfl

theorem build_maxWorldX (rand : String → ℚ) (chunkX chunkZ : ℤ) (size : ℕ) :
    (Chunk.build rand chunkX chunkZ size).maxWorldX = chunkX * size + size := rfl

theorem build_maxWorldZ (rand : String → ℚ) (chunkX chunkZ : ℤ) (size : ℕ) :
    (Chunk.build rand chunkX chunkZ size).maxWorldZ = chunkZ * size + size := rfl

theorem build_size (rand : String → ℚ) (chunkX chunkZ : ℤ) (size : ℕ) :
    (Chunk.build rand chunkX chunkZ size).size = size := rfl

/-- `Math.floor(Math.floor(x) / n) = Math.floor(x / n)` for a natural
divisor: flooring the numerator first does not change a floor division. -/
theorem floor_floor_div (x : ℚ) (n : ℕ) :
    ⌊((⌊x⌋ : ℤ) : ℚ) / (n : ℚ)⌋ = ⌊x / (n : ℚ)⌋ := by
  rcases Nat.eq_zero_or_pos n with h0 | hpos
  · subst h0; simp
  · have hn : (0 : ℚ) < (n : ℚ) := by exact_mod_cast hpos
    apply le_antisymm
    · exact Int.floor_le_floor ((div_le_div_iff_of_pos_right hn).2 (Int.floor_le x))
    · rw [Int.le_floor, le_div_iff₀ hn]
      have h2 : ((⌊x / (n : ℚ)⌋ : ℚ)) * n ≤ x := by
        rw [← le_div_iff₀ hn]; exact Int.floor_le _
      have h3 : ⌊x / (n : ℚ)⌋ * (n : ℤ) ≤ ⌊x⌋ :=
        Int.le_floor.2 (by push_cast; exact h2)
      calc ((⌊x / (n : ℚ)⌋ : ℚ)) * n = ((⌊x / (n : ℚ)⌋ * (n : ℤ) : ℤ) : ℚ) := by
            push_cast; ring
        _ ≤ ((⌊x⌋ : ℤ) : ℚ) := by exact_mod_cast h3

/-- `hasBlock` refuses any negative `y` regardless of the chunk's data. -/
theorem hasBlock_of_neg (c : Chunk) (x y z : ℤ) (hy : y < 0) :
    c.hasBlock x y z = false := by
  simp only [Chunk.hasBlock]
  split
  · rfl
  · split
    · rfl
    · rw [decide_eq_false_iff_not]
      omega

/-! ### Claim theorem: block queries -/

/-- C4: `hasBlock` is true exactly on the generated blocks — inside the
half-open horizontal bounds with `0 ≤ y ≤` the stored column height, and
false (never an error) outside; `isBlockAt` floors all three coordinates,
locates the owning chunk by `⌊x/size⌋, ⌊z/size⌋` (flooring the
already-floored coordinate changes nothing), returns false when that
chunk is not loaded, and otherwise delegates to that chunk's `hasBlock`
(the `iy < 0` early return agrees with the delegation, since `hasBlock`
also refuses negative `y`). -/
theorem hasBlock_isBlockAt_spec :
    (∀ (rand : String → ℚ) (chunkX chunkZ : ℤ) (size : ℕ) (x y z : ℤ),
      (Chunk.build rand chunkX chunkZ size).hasBlock x y z = true ↔
        (chunkX * size ≤ x ∧ x < chunkX * size + size ∧
         chunkZ * size ≤ z ∧ z < chunkZ * size + size ∧
         0 ≤ y ∧ y ≤ (((Chunk.build rand chunkX chunkZ size).heightMap.getD
            (z - chunkZ * size).toNat []).getD (x - chunkX * size).toNat 0))) ∧
    (∀ (st : WorldState) (x y z : ℚ),
      st.isBlockAt x y z =
        match st.lookupChunk
            (⌊x / (st.chunkSize : ℚ)⌋, ⌊z / (st.chunkSize : ℚ)⌋) with
        | none => false
        | some c => c.hasBlock ⌊x⌋ ⌊y⌋ ⌊z⌋) := by
  constructor
  · intro rand chunkX chunkZ size x y z
    simp only [Chunk.hasBlock, build_minWorldX, build_minWorldZ, build_maxWorldX,
      build_maxWorldZ, build_size]
    by_cases hb : chunkX * size ≤ x ∧ x < chunkX * size + size ∧
        chunkZ * size ≤ z ∧ z < chunkZ * size + size
    · rw [if_neg (by omega), if_neg (by omega), decide_eq_true_eq]
      constructor
      · intro h
        exact ⟨hb.1, hb.2.1, hb.2.2.1, hb.2.2.2, h.1, h.2⟩
      · intro h
        exact ⟨h.2.2.2.2.1, h.2.2.2.2.2⟩
    · rw [if_pos (by omega)]
      simp only [Bool.false_eq_true, false_iff]
      intro hc
      exact hb ⟨hc.1, hc.2.1, hc.2.2.1, hc.2.2.2.1⟩
  · intro st x y z
    simp only [WorldState.isBlockAt]
    rw [floor_floor_div x st.chunkSize, floor_floor_div z st.chunkSize]
    by_cases hy : ⌊y⌋ < 0
    · rw [if_pos hy]
      cases hlk : st.lookupChunk
          (⌊x / (st.chunkSize : ℚ)⌋, ⌊z / (st.chunkSize : ℚ)⌋) with
      | none => rfl
      | some c =>
          show false = c.hasBlock ⌊x⌋ ⌊y⌋ ⌊z⌋
          rw [hasBlock_of_neg c _ _ _ hy]
    · rw [if_neg hy]

/-! ### Helper lemmas about the world streamer -/

theorem mem_requiredList (centerX centerZ : ℤ) (r : ℕ) (k : ℤ × ℤ) :
    k ∈ WorldState.requiredList centerX centerZ r ↔
      |k.1 - centerX| ≤ (r : ℤ) ∧ |k.2 - centerZ| ≤ (r : ℤ) := by
  obtain ⟨k1, k2⟩ := k
  unfold WorldState.requiredList
  simp only [List.mem_flatMap, List.mem_map, List.mem_range, Prod.mk.injEq]
  rw [abs_le, abs_le]
  constructor
  · rintro ⟨a, ha, b, hb, h1, h2⟩
    omega
  · rintro ⟨h1, h2⟩
    exact ⟨(k1 - centerX + r).toNat, by omega,
      (k2 - centerZ + r).toNat, by omega, by omega, by omega⟩

theorem requiredList_nodup (centerX centerZ : ℤ) (r : ℕ) :
    (WorldState.requiredList centerX centerZ r).Nodup := by
  unfold WorldState.requiredList
  rw [List.nodup_flatMap]
  constructor
  · intro a _
    exact (List.nodup_range _).map (fun b b' h => by
      have := congrArg Prod.snd h
      simp only at this
      omega)
  · refine (List.nodup_range _).imp ?_
    intro a b hab k hka hkb
    simp only [List.mem_map, List.mem_range] at hka hkb
    obtain ⟨b1, _, hk1⟩ := hka
    obtain ⟨b2, _, hk2⟩ := hkb
    have h1 := congrArg Prod.fst hk1
    have h2 := congrArg Prod.fst hk2
    simp only at h1 h2
    omega

/-- Regardless of the aggregation branch, `updateChunks` leaves the map
as: the survivors of the unload filter followed by the freshly built
chunks, in insertion order. -/
theorem updateChunks_loadedChunks (rand : String → ℚ) (st : WorldState)
    (centerX centerZ : ℤ) :
    (WorldState.updateChunks rand st centerX centerZ).loadedChunks =
      (st.loadedChunks.filter fun kc =>
        decide (kc.1 ∈ WorldState.requiredList centerX centerZ st.renderDistance)) ++
      (((WorldState.requiredList centerX centerZ st.renderDistance).filter
          fun k => (st.lookupChunk k).isNone).map
        fun k => (k, Chunk.build rand k.1 k.2 st.chunkSize)) := by
  simp only [WorldState.updateChunks]
  split
  · rfl
  · rfl

theorem updateChunks_chunkSize (rand : String → ℚ) (st : WorldState)
    (centerX centerZ : ℤ) :
    (WorldState.updateChunks rand st centerX centerZ).chunkSize = st.chunkSize := by
  simp only [WorldState.updateChunks]
  split
  · rfl
  · rfl

theorem filter_of_length_eq {α : Type} (l : List α) (p : α → Bool)
    (h : (l.filter p).length = l.length) : l.filter p = l := by
  induction l with
  | nil => rfl
  | cons a l ih =>
    rw [List.filter_cons] at h ⊢
    by_cases hp : p a
    · simp only [hp, if_pos] at h ⊢
      simp only [List.length_cons, Nat.add_right_cancel_iff] at h
      rw [ih h]
    · simp only [hp] at h ⊢
      have := List.length_filter_le p l
      simp at h
      omega

/-- A key is absent from the association list exactly when the `Map.get`
lookup comes back empty. -/
theorem lookupChunk_isNone (st : WorldState) (k : ℤ × ℤ) :
    (st.lookupChunk k).isNone = true ↔
      k ∉ st.loadedChunks.map Prod.fst := by
  unfold WorldState.lookupChunk
  constructor
  · intro h hmem
    obtain ⟨kc, hkc, hk1⟩ := List.mem_map.1 hmem
    have hsome : (st.loadedChunks.find? fun kc => decide (kc.1 = k)).isSome := by
      rw [List.find?_isSome]
      exact ⟨kc, hkc, decide_eq_true hk1⟩
    cases hfind : st.loadedChunks.find? fun kc => decide (kc.1 = k) with
    | none => rw [hfind] at hsome; simp at hsome
    | some kc2 => rw [hfind] at h; simp at h
  · intro h
    cases hfind : st.loadedChunks.find? fun kc => decide (kc.1 = k) with
    | none => rfl
    | some kc =>
      have hp : kc.1 = k := by
        have := List.find?_some hfind
        simpa using this
      exact absurd (List.mem_map.2 ⟨kc, List.mem_of_find?_eq_some hfind, hp⟩) h

/-- The combined buffer of well-formed loaded chunks has length
`4 ×` their total cube count (each chunk's own buffer does, by
`build_length_eq`). -/
theorem flatMap_length_cast (rand : String → ℚ) (size : ℕ)
    (l : List ((ℤ × ℤ) × Chunk))
    (h : ∀ kc ∈ l, kc.2 = Chunk.build rand kc.1.1 kc.1.2 size) :
    ((l.flatMap fun kc => kc.2.cubePositions).length : ℤ) =
      4 * (l.map fun kc => kc.2.numCubes).sum := by
  induction l with
  | nil => simp
  | cons a l ih =>
    rw [List.flatMap_cons, List.length_append, List.map_cons, List.sum_cons]
    push_cast
    rw [ih fun kc hkc => h kc (List.mem_cons_of_mem a hkc)]
    have ha := h a (List.mem_cons_self a l)
    show ((a.2.cubePositionsF32.length : ℤ)) + _ = _
    rw [ha]
    show ((Chunk.build rand a.1.1 a.1.2 size).cubePositionsF32.length : ℤ) + _ =
      4 * ((Chunk.build rand a.1.1 a.1.2 size).cubes + _)
    rw [build_length_eq rand a.1.1 a.1.2 size]
    ring

/-! ### Claim theorems: world streamer -/

/-- C2: after any `updateChunks(centerX, centerZ)` call, from any prior
map state, the key set of the loaded-chunk map is exactly the Chebyshev
neighborhood of radius `renderDistance` around the center — a key is
present iff both coordinate offsets have absolute value at most
`renderDistance`. -/
theorem updateChunks_keys_spec (rand : String → ℚ) (st : WorldState)
    (centerX centerZ : ℤ) (k : ℤ × ℤ) :
    k ∈ ((WorldState.updateChunks rand st centerX centerZ).loadedChunks.map
        Prod.fst) ↔
      |k.1 - centerX| ≤ (st.renderDistance : ℤ) ∧
      |k.2 - centerZ| ≤ (st.renderDistance : ℤ) := by
  rw [updateChunks_loadedChunks,
    ← mem_requiredList centerX centerZ st.renderDistance k]
  rw [List.map_append, List.mem_append, List.map_map]
  constructor
  · rintro (hk | hk)
    · obtain ⟨kc, hkc, rfl⟩ := List.mem_map.1 hk
      exact of_decide_eq_true (List.mem_filter.1 hkc).2
    · obtain ⟨k', hk', hfst⟩ := List.mem_map.1 hk
      have : k' = k := hfst
      subst this
      exact (List.mem_filter.1 hk').1
  · intro hk
    cases hnone : (st.lookupChunk k).isNone with
    | true =>
      right
      exact List.mem_map.2 ⟨k, List.mem_filter.2 ⟨hk, hnone⟩, rfl⟩
    | false =>
      left
      have hmem : k ∈ st.loadedChunks.map Prod.fst := by
        by_contra hnot
        have := (lookupChunk_isNone st k).2 hnot
        rw [hnone] at this
        exact Bool.false_ne_true this
      obtain ⟨kc, hkc, hk1⟩ := List.mem_map.1 hmem
      refine List.mem_map.2 ⟨kc, List.mem_filter.2 ⟨hkc, ?_⟩, hk1⟩
      rw [hk1]
      exact decide_eq_true hk

/-- C8: `updateChunks` preserves the rendering-cache consistency: from
any consistent prior state (in particular the initial empty state),
after the call the combined offset buffer has length exactly
`4 ×` the sum of `numCubes()` over the loaded chunks and
`totalCubesToDraw` equals that sum — whether the membership changed (the
buffer is rebuilt by `aggregateChunkData`) or not (the retained buffer is
still consistent because the membership is unchanged). -/
theorem aggregateChunkData_consistent (rand : String → ℚ) (st : WorldState)
    (hnd : (st.loadedChunks.map Prod.fst).Nodup)
    (hbuilt : ∀ kc ∈ st.loadedChunks,
      kc.2 = Chunk.build rand kc.1.1 kc.1.2 st.chunkSize) :
    st.aggregateChunkData.consistent rand := by
  refine ⟨hnd, hbuilt, ?_, rfl⟩
  exact flatMap_length_cast rand st.chunkSize st.loadedChunks hbuilt

theorem aggregate_buffer_invariant (rand : String → ℚ) (st : WorldState)
    (centerX centerZ : ℤ) (h : st.consistent rand) :
    (WorldState.updateChunks rand st centerX centerZ).consistent rand ∧
    (((WorldState.updateChunks rand st centerX centerZ).combinedCubeOffsets.length : ℤ) =
      4 * ((WorldState.updateChunks rand st centerX centerZ).loadedChunks.map
        fun kc => kc.2.numCubes).sum) ∧
    ((WorldState.updateChunks rand st centerX centerZ).totalCubesToDraw =
      ((WorldState.updateChunks rand st centerX centerZ).loadedChunks.map
        fun kc => kc.2.numCubes).sum) := by
  obtain ⟨hnd, hbuilt, hbuf, htot⟩ := h
  have hkeysAL : (((st.loadedChunks.filter fun kc =>
      decide (kc.1 ∈ WorldState.requiredList centerX centerZ st.renderDistance)) ++
      (((WorldState.requiredList centerX centerZ st.renderDistance).filter
          fun k => (st.lookupChunk k).isNone).map
        fun k => (k, Chunk.build rand k.1 k.2 st.chunkSize))).map Prod.fst).Nodup := by
    rw [List.map_append, List.map_map]
    refine List.Nodup.append ?_ ?_ ?_
    · exact hnd.sublist ((List.filter_sublist st.loadedChunks).map Prod.fst)
    · have hcomp : (Prod.fst ∘ fun k : ℤ × ℤ =>
          (k, Chunk.build rand k.1 k.2 st.chunkSize)) = fun k => k := rfl
      rw [hcomp, List.map_id']
      exact (requiredList_nodup centerX centerZ st.renderDistance).filter _
    · intro k hk1 hk2
      obtain ⟨kc, hkc, rfl⟩ := List.mem_map.1 hk1
      obtain ⟨k2, hk2m, hfst⟩ := List.mem_map.1 hk2
      have hkeq : k2 = kc.1 := hfst
      subst hkeq
      have hnone := (List.mem_filter.1 hk2m).2
      rw [lookupChunk_isNone] at hnone
      exact hnone (List.mem_map.2 ⟨kc, (List.mem_filter.1 hkc).1, rfl⟩)
  have hbuiltAL : ∀ kc ∈ (st.loadedChunks.filter fun kc =>
      decide (kc.1 ∈ WorldState.requiredList centerX centerZ st.renderDistance)) ++
      (((WorldState.requiredList centerX centerZ st.renderDistance).filter
          fun k => (st.lookupChunk k).isNone).map
        fun k => (k, Chunk.build rand k.1 k.2 st.chunkSize)),
      kc.2 = Chunk.build rand kc.1.1 kc.1.2 st.chunkSize := by
    intro kc hkc
    rcases List.mem_append.1 hkc with hkc | hkc
    · exact hbuilt kc (List.mem_filter.1 hkc).1
    · obtain ⟨k2, _, rfl⟩ := List.mem_map.1 hkc
      rfl
  by_cases hcond : ((WorldState.requiredList centerX centerZ st.renderDistance).filter
      fun k => (st.lookupChunk k).isNone) ≠ [] ∨
    st.loadedChunks.length ≠ ((st.loadedChunks.filter fun kc =>
      decide (kc.1 ∈ WorldState.requiredList centerX centerZ st.renderDistance)) ++
      (((WorldState.requiredList centerX centerZ st.renderDistance).filter
          fun k => (st.lookupChunk k).isNone).map
        fun k => (k, Chunk.build rand k.1 k.2 st.chunkSize))).length
  · -- aggregation branch: the buffer is rebuilt from the new map
    have hupd : WorldState.updateChunks rand st centerX centerZ =
        WorldState.aggregateChunkData { st with
          loadedChunks := (st.loadedChunks.filter fun kc =>
            decide (kc.1 ∈ WorldState.requiredList centerX centerZ st.renderDistance)) ++
            (((WorldState.requiredList centerX centerZ st.renderDistance).filter
                fun k => (st.lookupChunk k).isNone).map
              fun k => (k, Chunk.build rand k.1 k.2 st.chunkSize)) } := by
      simp only [WorldState.updateChunks]
      rw [if_pos hcond]
    rw [hupd]
    exact ⟨aggregateChunkData_consistent rand _ hkeysAL hbuiltAL,
      flatMap_length_cast rand st.chunkSize _ hbuiltAL, rfl⟩
  · -- skip branch: nothing to load and nothing unloaded, so the map — and
    -- with it the retained buffer — is unchanged
    have hupd : WorldState.updateChunks rand st centerX centerZ =
        { st with
          loadedChunks := (st.loadedChunks.filter fun kc =>
            decide (kc.1 ∈ WorldState.requiredList centerX centerZ st.renderDistance)) ++
            (((WorldState.requiredList centerX centerZ st.renderDistance).filter
                fun k => (st.lookupChunk k).isNone).map
              fun k => (k, Chunk.build rand k.1 k.2 st.chunkSize)) } := by
      simp only [WorldState.updateChunks]
      rw [if_neg hcond]
    push_neg at hcond
    obtain ⟨hload, hlen⟩ := hcond
    rw [hload, List.map_nil, List.append_nil] at hlen hupd
    have hfilter : st.loadedChunks.filter (fun kc =>
        decide (kc.1 ∈ WorldState.requiredList centerX centerZ st.renderDistance)) =
        st.loadedChunks :=
      filter_of_length_eq _ _ hlen.symm
    rw [hfilter] at hupd
    have hself : WorldState.updateChunks rand st centerX centerZ = st := hupd
    rw [hself]
    exact ⟨⟨hnd, hbuilt, hbuf, htot⟩, hbuf, htot⟩

/-- Witness for C8: the initial empty state is consistent, and one
`updateChunks` call from it yields a consistent state. -/
theorem aggregate_buffer_invariant_witness :
    (WorldState.updateChunks constRand WorldState.initial 0 0).consistent constRand ∧
    (((WorldState.updateChunks constRand WorldState.initial 0 0).combinedCubeOffsets.length : ℤ) =
      4 * ((WorldState.updateChunks constRand WorldState.initial 0 0).loadedChunks.map
        fun kc => kc.2.numCubes).sum) ∧
    ((WorldState.updateChunks constRand WorldState.initial 0 0).totalCubesToDraw =
      ((WorldState.updateChunks constRand WorldState.initial 0 0).loadedChunks.map
        fun kc => kc.2.numCubes).sum) :=
  aggregate_buffer_invariant constRand WorldState.initial 0 0
    (by simp [WorldState.consistent, WorldState.initial])

/-! ### Claim theorems: player physics over flat terrain -/

/-- C5 counterexample: over terrain of flat height 5 the blocks occupy
`0 ≤ ⌊y⌋ ≤ 5`, i.e. all of `y < 6`, so a reference point placed at
`y = 5.5` starts inside the terrain; one `updatePlayer` step with
`dt = 0.1` snaps it to `y = 5.001 < 6` — refuting "never passes below
y = 6" — and that state is a fixed point of the step, so the point
settles at `5.001`, not at `≈ 6.001`. -/
theorem updatePlayer_scenario_counterexample :
    (Player.flatStep Player.scenarioStart).playerPosition.y = 5001/1000 ∧
    (Player.flatStep Player.scenarioStart).playerPosition.y < 6 ∧
    Player.flatStep (Player.flatStep Player.scenarioStart) =
      Player.flatStep Player.scenarioStart := by
  have h1 : Player.flatStep Player.scenarioStart =
      ⟨⟨32, 5001/1000, 32⟩, ⟨0, 0, 0⟩, false⟩ := by
    norm_num [Player.flatStep, Player.updatePlayer, Player.checkCollision,
      Player.flatWorldBlockAt, Player.scenarioStart, Player.gravity,
      Player.terminalVelocity, Player.playerHeight, Player.playerRadius,
      Player.resetState, Player.chunkSize, Int.floor_eq_iff]
  have h2 : Player.flatStep (⟨⟨32, 5001/1000, 32⟩, ⟨0, 0, 0⟩, false⟩ :
      Player.PlayerState) = ⟨⟨32, 5001/1000, 32⟩, ⟨0, 0, 0⟩, false⟩ := by
    norm_num [Player.flatStep, Player.updatePlayer, Player.checkCollision,
      Player.flatWorldBlockAt, Player.gravity,
      Player.terminalVelocity, Player.playerHeight, Player.playerRadius,
      Player.resetState, Player.chunkSize, Int.floor_eq_iff]
  rw [h1]
  refine ⟨rfl, by norm_num, ?_⟩
  rw [h2]

/-- C5 (amended): over flat height-5 terrain the claimed scenario holds
for a reference point released *above* the surface: starting at position
`y = 8.5` (feet `y = 6.5`, half a block above the terrain top at `y = 6`)
with zero velocity and stepping with `dt = 0.1`, the feet
(`position - playerHeight`) never pass below `y = 6` at any step, and
from the second step on the state settles at position `y = 8.001` — feet
at the landing offset `y = 6.001` — with the vertical velocity zeroed. -/
theorem updatePlayer_flat_settles (n : ℕ) :
    6 ≤ (Player.flatStep^[n] Player.scenarioStartAbove).playerPosition.y -
      Player.playerHeight ∧
    (2 ≤ n →
      (Player.flatStep^[n] Player.scenarioStartAbove).playerPosition.y =
        8001/1000 ∧
      (Player.flatStep^[n] Player.scenarioStartAbove).playerVelocity.y = 0) := by
  have h1 : Player.flatStep Player.scenarioStartAbove =
      ⟨⟨32, 33/4, 32⟩, ⟨0, -5/2, 0⟩, false⟩ := by
    norm_num [Player.flatStep, Player.updatePlayer, Player.checkCollision,
      Player.flatWorldBlockAt, Player.scenarioStartAbove, Player.gravity,
      Player.terminalVelocity, Player.playerHeight, Player.playerRadius,
      Player.resetState, Player.chunkSize, Int.floor_eq_iff]
  have h2 : Player.flatStep (⟨⟨32, 33/4, 32⟩, ⟨0, -5/2, 0⟩, false⟩ :
      Player.PlayerState) = ⟨⟨32, 8001/1000, 32⟩, ⟨0, 0, 0⟩, false⟩ := by
    norm_num [Player.flatStep, Player.updatePlayer, Player.checkCollision,
      Player.flatWorldBlockAt, Player.gravity,
      Player.terminalVelocity, Player.playerHeight, Player.playerRadius,
      Player.resetState, Player.chunkSize, Int.floor_eq_iff]
  have hfix : Player.flatStep (⟨⟨32, 8001/1000, 32⟩, ⟨0, 0, 0⟩, false⟩ :
      Player.PlayerState) = ⟨⟨32, 8001/1000, 32⟩, ⟨0, 0, 0⟩, false⟩ := by
    norm_num [Player.flatStep, Player.updatePlayer, Player.checkCollision,
      Player.flatWorldBlockAt, Player.gravity,
      Player.terminalVelocity, Player.playerHeight, Player.playerRadius,
      Player.resetState, Player.chunkSize, Int.floor_eq_iff]
  have hiter : ∀ m : ℕ, Player.flatStep^[m + 2] Player.scenarioStartAbove =
      ⟨⟨32, 8001/1000, 32⟩, ⟨0, 0, 0⟩, false⟩ := by
    intro m
    induction m with
    | zero =>
      show Player.flatStep (Player.flatStep Player.scenarioStartAbove) = _
      rw [h1, h2]
    | succ m ih =>
      rw [Function.iterate_succ_apply', ih, hfix]
  rcases n with _ | _ | m
  · constructor
    · norm_num [Player.scenarioStartAbove, Player.playerHeight]
    · intro hc; omega
  · rw [Function.iterate_one, h1]
    constructor
    · norm_num [Player.playerHeight]
    · intro hc; omega
  · rw [hiter m]
    refine ⟨by norm_num [Player.playerHeight], fun _ => ⟨rfl, rfl⟩⟩

/-- Witness for the amended C5 at `n = 2` steps. -/
theorem updatePlayer_flat_settles_witness :
    (6 ≤ (Player.flatStep^[2] Player.scenarioStartAbove).playerPosition.y -
      Player.playerHeight) ∧
    ((Player.flatStep^[2] Player.scenarioStartAbove).playerPosition.y =
        8001/1000 ∧
      (Player.flatStep^[2] Player.scenarioStartAbove).playerVelocity.y = 0) :=
  ⟨(updatePlayer_flat_settles 2).1,
    (updatePlayer_flat_settles 2).2 (le_refl 2)⟩

end Minecraft
